import Mathlib

/-!
# Verification of the FTL cheatsheet generator (src/generator.py)

A shallow embedding of the core of `generator.py`: the entity registry
(event/group/ship dictionaries), the graph builder's registration logic,
the quest-marker and resource-range fragments of `graph_add_event`, the
canonicalizer (`contains_duplicate`, `merge_group`, `canonicalize_groups`),
the reference counter (`init_nesting`), the root resolver
(`add_root_event` / `add_root_group`) and the renderer
(`can_inline_event`, `goto_event_or_group`, `output_event`, `output_group`,
`output_ship`, the top-level loop of `output_html`).

Modelling conventions:
* Python dicts become insertion-ordered association lists
  (`dictGet` / `dictSet` / `dictHas`); Python sets whose only observable
  is membership become lists managed with `set_add`.
* Printing becomes a pure token stream `List Out`; the constant HTML
  header/footer of `output_html` (pure static text) is not modelled.
* Text translation and HTML escaping (`translate_message`, `html.escape`,
  the hardcoded vocabulary tables) are external inputs in the source's own
  description, so Event fields carry the already-computed html strings.
* Recursions that the Python runtime bounds only by its call stack
  (rendering, root resolution) take an explicit fuel argument; `none`
  means the fuel ran out or a Python `assert False` / `abort` / uncaught
  KeyError was reached.
* Machine integers do not overflow here (Python ints are unbounded), so
  quantities are `Nat` / `Int` directly.
-/

namespace FTLGen

/-! ## Dictionaries (Python `dict` as insertion-ordered association list) -/

/-- `d[k]` lookup: first binding of `k`, if any. -/
def dictGet {α : Type} (d : List (String × α)) (k : String) : Option α :=
  match d with
  | [] => none
  | (k2, v) :: rest => if k2 = k then some v else dictGet rest k

/-- `d[k] = v`: replace the binding in place if present, else append. -/
def dictSet {α : Type} (d : List (String × α)) (k : String) (v : α) :
    List (String × α) :=
  match d with
  | [] => [(k, v)]
  | (k2, v2) :: rest =>
      if k2 = k then (k2, v) :: rest else (k2, v2) :: dictSet rest k v

/-- `k in d`. -/
def dictHas {α : Type} (d : List (String × α)) (k : String) : Bool :=
  (dictGet d k).isSome

/-- Python `set.add` on a set modelled as a duplicate-free list. -/
def set_add (s : List String) (x : String) : List String :=
  if s.contains x then s else s ++ [x]

/-- Character-list prefix test (`str.startswith`, spelled out so that all
string reasoning stays inside kernel-reducible list operations). -/
def chars_start_with : List Char → List Char → Bool
  | _, [] => true
  | [], _ :: _ => false
  | c :: s, p :: ps => c == p && chars_start_with s ps

/-- `s.startswith(p)`. -/
def str_starts_with (s p : String) : Bool :=
  chars_start_with s.data p.data

/-- `s[n:]` for the `str.removeprefix` call sites (always guarded by a
`str_starts_with` check in the source). -/
def str_drop (s : String) (n : Nat) : String :=
  String.mk (s.data.drop n)

/-! ## Data model (`Event` and ship namedtuples, generator.py:302-314, 922) -/

/-- `Event = namedtuple('Event', ['text_html', 'actions_html', 'choices', 'fight'])`.
A choice is `(req_msg+text, is_blue, eventid)`; the event id is `none` for
the "EMPTY CHOICE" case (generator.py:854). -/
structure Event where
  text_html : String
  actions_html : String
  choices : Option (List (String × Bool × Option String))
  fight : Option String
deriving DecidableEq, Repr

/-- The per-ship record built by `graph_add_ship` (generator.py:922-927):
four optional outcome event ids. -/
structure Ship where
  destroyed : Option String
  dead_crew : Option String
  gotaway : Option String
  surrender : Option String
deriving DecidableEq, Repr

/-! ## `num_range` and the `item_modify` fragment (generator.py:36-41, 491-517)

The resource display name (`resource_name[typ]`, a hardcoded vocabulary
table) is taken as an opaque input string `what`; the sign logic on the
integer bounds is modelled exactly. `Except.error` is `abort(...)`. -/

/-- `num_range(lo, hi)` (generator.py:36-41). -/
def num_range (lo hi : Int) : String :=
  if lo = hi then toString lo
  else (" ") ++ toString lo ++ ("-") ++ toString hi ++ (" ")

/-- One `<item>` of an `<item_modify>` in one direction pass
(generator.py:498-517). `isPlus = false` is the `'minus'` pass,
`isPlus = true` the `'plus'` pass. -/
def item_modify_one (isPlus : Bool) (what : String) (lo hi : Int) :
    Except String (List String) :=
  if lo ≥ 0 && hi ≥ 0 then
    .ok (if isPlus then
      [("<li>+") ++ num_range lo hi ++ (" <strong>") ++ what ++ ("</strong>")]
    else [])
  else if lo ≤ 0 && hi ≤ 0 then
    .ok (if !isPlus then
      [("<li>−") ++ num_range (-hi) (-lo) ++ (" <strong>") ++ what ++ ("</strong>")]
    else [])
  else .error ("nonsensical resource range")

/-- The inner `for item in item_modify.iterfind('item')` loop for one
direction. An item is `(what, lo, hi)`. -/
def item_modify_pass (isPlus : Bool) :
    List (String × Int × Int) → Except String (List String)
  | [] => .ok []
  | (what, lo, hi) :: rest =>
      match item_modify_one isPlus what lo hi with
      | .error e => .error e
      | .ok a =>
          match item_modify_pass isPlus rest with
          | .error e => .error e
          | .ok b => .ok (a ++ b)

/-- The full `item_modify` processing: the `'minus'` pass over all items,
then the `'plus'` pass (generator.py:496: payments before rewards). -/
def item_modify_actions (items : List (String × Int × Int)) :
    Except String (List String) :=
  match item_modify_pass false items with
  | .error e => .error e
  | .ok m =>
      match item_modify_pass true items with
      | .error e => .error e
      | .ok p => .ok (m ++ p)

/-- Did processing abort fatally? -/
def exceptIsError {ε α : Type} : Except ε α → Bool
  | .error _ => true
  | .ok _ => false

/-- The claim's "bounds straddle zero inconsistently": neither both bounds
`≥ 0` nor both bounds `≤ 0`. -/
def straddles_zero (lo hi : Int) : Prop :=
  ¬(lo ≥ 0 ∧ hi ≥ 0) ∧ ¬(lo ≤ 0 ∧ hi ≤ 0)

instance (lo hi : Int) : Decidable (straddles_zero lo hi) := by
  unfold straddles_zero; infer_instance

/-! ## The `<quest>` fragment of `graph_add_event` (generator.py:719-733)

`event_keys` / `group_keys` are the name sets precomputed by the first
pass of `build_graph` (generator.py:342-346). The fragment classifies the
quest target, records it in `quest_events_set` / `quest_groups_set`, and
links it; `none` is the `assert False` for an unknown name. -/

/-- Which namespace a quest target was resolved (and linked) into. -/
inductive QuestRef where
  | toEventKey (id : String)
  | toGroupKey (id : String)
deriving DecidableEq, Repr

/-- The two quest-pin sets (generator.py:325-326). -/
structure QuestSets where
  quest_events_set : List String
  quest_groups_set : List String
deriving DecidableEq, Repr

/-- generator.py:719-733. -/
def process_quest (event_keys group_keys : List String) (qs : QuestSets)
    (id : String) : Option (QuestSets × QuestRef) :=
  if event_keys.contains id then
    some ({ qs with quest_events_set := set_add qs.quest_events_set id },
          QuestRef.toEventKey id)
  else if group_keys.contains id then
    some ({ qs with quest_groups_set := set_add qs.quest_groups_set id },
          QuestRef.toGroupKey id)
  else none

/-! ## Graph builder registration logic (generator.py:335-370, 401-412,
850-885, 893-948)

The input side of `graph_add_event` (xml traversal, translation lookup,
action rendering) computes an `Event` payload from external data; what the
registry logic observes of it is modelled by `RawEvent`: either a pure
`load` alias (generator.py:410-412, returns the referenced name and
creates nothing) or a node carrying its computed html payload, its choice
list (each choice holding its nested sub-event, generator.py:850-857) and
its fight field. Registration (generator.py:878-885): a missing name
draws a synthetic `evt-{n}` id (generator.py:328-332), a duplicate name
is `assert key not in event_dict`, modelled as `none`. -/

inductive RawEvent where
  | load (id : String)
  | make (name : Option String) (text_html : String) (actions_html : String)
      (choices : Option (List (String × Bool × Option RawEvent)))
      (fight : Option String)

/-- `<eventList>`: a name and its `<event>` children (generator.py:930-948). -/
structure RawGroup where
  name : String
  events : List RawEvent

/-- `<ship>`: a name and the four optional outcome sub-events
(generator.py:891-919). -/
structure RawShip where
  name : String
  destroyed : Option RawEvent
  deadCrew : Option RawEvent
  gotaway : Option RawEvent
  surrender : Option RawEvent

/-- One xml document, with its nodes in the order `build_graph` visits
them per file: `<event>`s, then `<eventList>`s, then `<ship>`s
(generator.py:357-367). -/
structure RawDoc where
  events : List RawEvent
  groups : List RawGroup
  ships : List RawShip

/-- The mutable module-level registry (generator.py:320-332). -/
structure BuildState where
  event_dict : List (String × Event)
  group_dict : List (String × List (Nat × String))
  ship_dict : List (String × Ship)
  anon_events : Nat
deriving Repr

def initBuildState : BuildState :=
  { event_dict := [], group_dict := [], ship_dict := [], anon_events := 0 }

mutual

/-- `graph_add_event` (registration-relevant behaviour): a `load` node
resolves to the referenced name directly; otherwise nested choice
sub-events are built first (generator.py:850-857), then the node is
registered under its name — or a fresh `evt-{n}` id when unnamed
(generator.py:878-885) — failing on a duplicate name. Returns the id the
caller should reference. -/
def graph_add_event (st : BuildState) : RawEvent → Option (BuildState × String)
  | .load id => some (st, id)
  | .make name text_html actions_html choices fight =>
      match choices with
      | none => register_event st name text_html actions_html none fight
      | some cs =>
          match add_choice_children st cs with
          | none => none
          | some (st2, ids) =>
              register_event st2 name text_html actions_html (some ids) fight

/-- The `for choice in choice_node` loop: build each nested sub-event in
order, collecting `(text, is_blue, eventid)` triples. -/
def add_choice_children (st : BuildState) :
    List (String × Bool × Option RawEvent) →
    Option (BuildState × List (String × Bool × Option String))
  | [] => some (st, [])
  | (text, is_blue, sub) :: rest =>
      match sub with
      | none =>
          match add_choice_children st rest with
          | none => none
          | some (st2, ids) => some (st2, (text, is_blue, none) :: ids)
      | some e =>
          match graph_add_event st e with
          | none => none
          | some (st2, id) =>
              match add_choice_children st2 rest with
              | none => none
              | some (st3, ids) => some (st3, (text, is_blue, some id) :: ids)

/-- generator.py:878-885: `key = key or gen_event_id()`;
`assert key not in event_dict`; `event_dict[key] = Event(...)`. -/
def register_event (st : BuildState) (name : Option String)
    (text_html actions_html : String)
    (choices : Option (List (String × Bool × Option String)))
    (fight : Option String) : Option (BuildState × String) :=
  let keyed : String × BuildState :=
    match name with
    | some k => (k, st)
    | none =>
        let n := st.anon_events + 1
        (("evt-") ++ toString n, { st with anon_events := n })
  if dictHas keyed.2.event_dict keyed.1 then none
  else
    some ({ keyed.2 with
              event_dict := dictSet keyed.2.event_dict keyed.1
                (Event.mk text_html actions_html choices fight) },
          keyed.1)

end

/-- The `for event in group.iterfind('event')` loop of `graph_add_group`
(generator.py:935-938): each child event gets weight 1. -/
def add_group_cases (st : BuildState) :
    List RawEvent → Option (BuildState × List (Nat × String))
  | [] => some (st, [])
  | e :: rest =>
      match graph_add_event st e with
      | none => none
      | some (st2, id) =>
          match add_group_cases st2 rest with
          | none => none
          | some (st3, cases) => some (st3, (1, id) :: cases)

/-- `graph_add_group` (generator.py:930-948): build the cases, then
register. A name starting with `OVERRIDE_` is stripped of that prefix and
stored unconditionally (replacing any existing group of the stripped
name); any other name must not already be present
(`assert key not in group_dict`). -/
def graph_add_group (st : BuildState) (g : RawGroup) :
    Option (BuildState × String) :=
  match add_group_cases st g.events with
  | none => none
  | some (st2, cases) =>
      if str_starts_with g.name ("OVERRIDE_") then
        let key := str_drop g.name 9
        some ({ st2 with group_dict := dictSet st2.group_dict key cases }, key)
      else
        if dictHas st2.group_dict g.name then none
        else
          some ({ st2 with group_dict := dictSet st2.group_dict g.name cases },
                g.name)

/-- One optional ship outcome slot: build its sub-event if present
(generator.py:913-919). -/
def add_ship_slot (st : BuildState) :
    Option RawEvent → Option (BuildState × Option String)
  | none => some (st, none)
  | some e =>
      match graph_add_event st e with
      | none => none
      | some (st2, id) => some (st2, some id)

/-- `graph_add_ship` (generator.py:893-928): the four slots in the order
`destroyed, deadCrew, gotaway, surrender`, then `assert key not in
ship_dict` and registration. -/
def graph_add_ship (st : BuildState) (sh : RawShip) :
    Option (BuildState × String) :=
  match add_ship_slot st sh.destroyed with
  | none => none
  | some (st1, d) =>
  match add_ship_slot st1 sh.deadCrew with
  | none => none
  | some (st2, dc) =>
  match add_ship_slot st2 sh.gotaway with
  | none => none
  | some (st3, g) =>
  match add_ship_slot st3 sh.surrender with
  | none => none
  | some (st4, s) =>
      if dictHas st4.ship_dict sh.name then none
      else
        some ({ st4 with
                  ship_dict := dictSet st4.ship_dict sh.name
                    (Ship.mk d dc g s) },
              sh.name)

/-- Process a list of `<event>` nodes, discarding the returned ids
(generator.py:357-358). -/
def add_events_list (st : BuildState) : List RawEvent → Option BuildState
  | [] => some st
  | e :: rest =>
      match graph_add_event st e with
      | none => none
      | some (st2, _) => add_events_list st2 rest

/-- Process a list of `<eventList>` nodes in order, discarding ids. -/
def fold_groups (st : BuildState) : List RawGroup → Option BuildState
  | [] => some st
  | g :: rest =>
      match graph_add_group st g with
      | none => none
      | some (st2, _) => fold_groups st2 rest

/-- Process a list of `<ship>` nodes in order, discarding ids. -/
def add_ships_list (st : BuildState) : List RawShip → Option BuildState
  | [] => some st
  | sh :: rest =>
      match graph_add_ship st sh with
      | none => none
      | some (st2, _) => add_ships_list st2 rest

/-- The per-file `<eventList>` loop of `build_graph` (generator.py:360-364):
process non-`OVERRIDE_` groups now, collect the `OVERRIDE_` ones (in
order) for the final pass. -/
def add_doc_groups (st : BuildState) :
    List RawGroup → Option (BuildState × List RawGroup)
  | [] => some (st, [])
  | g :: rest =>
      if str_starts_with g.name ("OVERRIDE_") then
        match add_doc_groups st rest with
        | none => none
        | some (st2, ovs) => some (st2, g :: ovs)
      else
        match graph_add_group st g with
        | none => none
        | some (st2, _) =>
            match add_doc_groups st2 rest with
            | none => none
            | some (st3, ovs) => some (st3, ovs)

/-- The main loop of `build_graph` (generator.py:349-370): for each file,
events, then groups (deferring overrides), then ships; after all files,
the deferred override groups in collection order. (`textList` handling
and the `event_keys`/`group_keys`/`ship_keys` pre-pass touch neither the
three registries nor the claims here.) -/
def build_files (docs : List RawDoc) (ovs : List RawGroup) (st : BuildState) :
    Option BuildState :=
  match docs with
  | [] => fold_groups st ovs
  | doc :: rest =>
      match add_events_list st doc.events with
      | none => none
      | some st1 =>
          match add_doc_groups st1 doc.groups with
          | none => none
          | some (st2, ovs2) =>
              match add_ships_list st2 doc.ships with
              | none => none
              | some st3 => build_files rest (ovs ++ ovs2) st3

/-- `build_graph` (generator.py:335-370). -/
def build_graph (docs : List RawDoc) : Option BuildState :=
  build_files docs [] initBuildState

/-- The `OVERRIDE_` groups of the whole input, in document order. -/
def override_groups (docs : List RawDoc) : List RawGroup :=
  docs.flatMap fun d =>
    d.groups.filter fun g => str_starts_with g.name ("OVERRIDE_")

/-- One document with its override groups removed, processed in the
per-file order events / groups / ships. -/
def build_doc_nonoverride (st : BuildState) (d : RawDoc) : Option BuildState :=
  match add_events_list st d.events with
  | none => none
  | some st1 =>
      match fold_groups st1
          (d.groups.filter fun g => !str_starts_with g.name ("OVERRIDE_")) with
      | none => none
      | some st2 => add_ships_list st2 d.ships

/-- All documents, override groups removed. -/
def build_docs_nonoverride (st : BuildState) :
    List RawDoc → Option BuildState
  | [] => some st
  | d :: rest =>
      match build_doc_nonoverride st d with
      | none => none
      | some st2 => build_docs_nonoverride st2 rest

/-- Two-phase reading of the build (the phrasing of claim C9): first every
non-override event, group and ship of the whole input, then every
`OVERRIDE_` group. `build_graph` is proved equal to this. -/
def build_graph_phased (docs : List RawDoc) : Option BuildState :=
  match build_docs_nonoverride initBuildState docs with
  | none => none
  | some st => fold_groups st (override_groups docs)

/-! ## Canonicalizer (generator.py:959-987) -/

/-- `ev1 and ev2 and ev1 == ev2`: both ids resolve in `event_dict` and the
resolved `Event`s are structurally equal. (A namedtuple instance is always
truthy; `dict.get` yields `None` exactly when the id is absent.) -/
def events_equal (ed : List (String × Event)) (a b : String) : Bool :=
  match dictGet ed a, dictGet ed b with
  | some e1, some e2 => e1 == e2
  | _, _ => false

/-- `contains_duplicate` (generator.py:959-967): some case is structurally
equal to an earlier one. The double loop over index pairs `j < i` is
written as head-vs-rest recursion; it checks the same unordered pairs. -/
def contains_duplicate (ed : List (String × Event)) :
    List (Nat × String) → Bool
  | [] => false
  | c :: rest =>
      rest.any (fun c2 => events_equal ed c.2 c2.2) ||
        contains_duplicate ed rest

/-- The body of `merge_group`'s inner `for i, id2 in enumerate(events)`
loop: fold weight `c` of case `id1` into the first kept case with a
structurally equal event, else append `(c, id1)` at the end
(generator.py:972-981). -/
def fold_case (ed : List (String × Event)) (c : Nat) (id1 : String) :
    List (Nat × String) → List (Nat × String)
  | [] => [(c, id1)]
  | (c2, id2) :: rest =>
      if events_equal ed id1 id2 then (c2 + c, id2) :: rest
      else (c2, id2) :: fold_case ed c id1 rest

/-- `merge_group` (generator.py:969-982). -/
def merge_group (ed : List (String × Event)) (g : List (Nat × String)) :
    List (Nat × String) :=
  g.foldl (fun acc ci => fold_case ed ci.1 ci.2 acc) []

/-- `canonicalize_groups` (generator.py:984-987): rewrite each group's
case list in place when it contains a duplicate. -/
def canonicalize_groups (ed : List (String × Event))
    (gd : List (String × List (Nat × String))) :
    List (String × List (Nat × String)) :=
  gd.map fun kv =>
    (kv.1, if contains_duplicate ed kv.2 then merge_group ed kv.2 else kv.2)

/-- Sum of a group's case weights (the loop in generator.py:1205-1207, and
the quantity claim C4 conserves). -/
def weight_sum (g : List (Nat × String)) : Nat :=
  (g.map Prod.fst).sum

/-! ## Reference counter, `init_nesting` (generator.py:996-1031) -/

/-- The three in-degree counters, total functions over names; the source
initialises a key for every registry entry and guards every increment by
a membership test on the same key sets, so lookups outside the dictionary
keys never happen. -/
structure Counts where
  eventN : String → Nat
  groupN : String → Nat
  shipN : String → Nat

def bump (f : String → Nat) (k : String) : String → Nat :=
  fun x => if x = k then f x + 1 else f x

/-- One choice target (generator.py:1013-1017): group-namespace priority,
a `None` target (empty choice) or unresolvable name counts nowhere. -/
def count_choice_target (ed : List (String × Event))
    (gd : List (String × List (Nat × String))) (c : Counts)
    (b : Option String) : Counts :=
  match b with
  | none => c
  | some b =>
      if dictHas gd b then { c with groupN := bump c.groupN b }
      else if dictHas ed b then { c with eventN := bump c.eventN b }
      else c

/-- One event's outgoing edges (generator.py:1012-1019): its choice
targets, then its fight target (ship namespace, unguarded in the source —
`ship_nparents[ev.fight] += 1`). -/
def count_event (ed : List (String × Event))
    (gd : List (String × List (Nat × String))) (c : Counts) (ev : Event) :
    Counts :=
  let c :=
    match ev.choices with
    | none => c
    | some cs => cs.foldl (fun c ch => count_choice_target ed gd c ch.2.2) c
  match ev.fight with
  | none => c
  | some s => { c with shipN := bump c.shipN s }

/-- One group case target (generator.py:1021-1025): event-namespace
priority. -/
def count_group_case (ed : List (String × Event))
    (gd : List (String × List (Nat × String))) (c : Counts) (b : String) :
    Counts :=
  if dictHas ed b then { c with eventN := bump c.eventN b }
  else if dictHas gd b then { c with groupN := bump c.groupN b }
  else c

/-- One ship outcome slot (generator.py:1027-1031): group-namespace
priority. -/
def count_ship_slot (ed : List (String × Event))
    (gd : List (String × List (Nat × String))) (c : Counts)
    (b : Option String) : Counts :=
  match b with
  | none => c
  | some b =>
      if dictHas gd b then { c with groupN := bump c.groupN b }
      else if dictHas ed b then { c with eventN := bump c.eventN b }
      else c

/-- `init_nesting` (generator.py:1001-1031): zero counters, then the
event, group and ship edge scans in source order. -/
def init_nesting (ed : List (String × Event))
    (gd : List (String × List (Nat × String)))
    (sd : List (String × Ship)) : Counts :=
  let c0 : Counts := ⟨fun _ => 0, fun _ => 0, fun _ => 0⟩
  let c1 := ed.foldl (fun c kv => count_event ed gd c kv.2) c0
  let c2 := gd.foldl
    (fun c kv => kv.2.foldl (fun c ca => count_group_case ed gd c ca.2) c) c1
  sd.foldl
    (fun c kv =>
      let c := count_ship_slot ed gd c kv.2.destroyed
      let c := count_ship_slot ed gd c kv.2.dead_crew
      let c := count_ship_slot ed gd c kv.2.gotaway
      count_ship_slot ed gd c kv.2.surrender) c2

/-- A resolved reference, tagged with its namespace. -/
inductive ResolvedRef where
  | toEvent (id : String)
  | toGroup (id : String)
deriving DecidableEq, Repr

/-- The spec's `insideGroup`-context resolver, written from §4.2 of the
spec ("Event namespace has priority — if the name exists as an Event, use
it; else, if it exists as a Group, use that; else it is an error"), for
comparison with the two code paths of claim C2. -/
def spec_resolve_inside_group (ed : List (String × Event))
    (gd : List (String × List (Nat × String))) (id : String) :
    Option ResolvedRef :=
  if dictHas ed id then some (ResolvedRef.toEvent id)
  else if dictHas gd id then some (ResolvedRef.toGroup id)
  else none

/-! ## Root resolver (generator.py:1040-1065) -/

mutual

/-- `add_root_event` (generator.py:1043-1053): an existing event name is
appended to the root list (once); a group name recurses through the
group's case targets; anything else is `assert False`. `root_event_set` /
`root_event_list` are kept in lockstep in the source, so a single list
models both. Fuel bounds the group-chain recursion. -/
def add_root_event (fuel : Nat) (ed : List (String × Event))
    (gd : List (String × List (Nat × String))) (rs : List String)
    (name : String) : Option (List String) :=
  match fuel with
  | 0 => none
  | fuel + 1 =>
      if dictHas ed name then
        some (if rs.contains name then rs else rs ++ [name])
      else
        match dictGet gd name with
        | some cases => add_root_cases fuel ed gd rs cases
        | none => none

/-- The `for (_, ev) in group_dict[name]` recursion of the root resolver. -/
def add_root_cases (fuel : Nat) (ed : List (String × Event))
    (gd : List (String × List (Nat × String))) (rs : List String) :
    List (Nat × String) → Option (List String)
  | [] => some rs
  | (_, ev) :: rest =>
      match add_root_event fuel ed gd rs ev with
      | none => none
      | some rs2 => add_root_cases fuel ed gd rs2 rest

end

/-- `add_root_group` (generator.py:1055-1065): its body is textually
identical to `add_root_event` (both recurse through `add_root_event`). -/
def add_root_group (fuel : Nat) (ed : List (String × Event))
    (gd : List (String × List (Nat × String))) (rs : List String)
    (name : String) : Option (List String) :=
  add_root_event fuel ed gd rs name

/-! ## Renderer (generator.py:1130-1361)

Printing is modelled as a token stream. `Out.raw` is one `print(...)` of
ordinary markup; `Out.goto` is `goto_url(make_link(typ, id))`
(generator.py:387-390, 1135-1136) holding the link's namespace tag and
target name; `Out.anchorDecl` is `output_anchor(typ, key)`
(generator.py:1240-1243). The `printed_*` bookkeeping sets and
`link_target_set`/`anchor_set` only feed stderr diagnostics after the
render and never change what is printed, so they are not threaded.
Rendering recursion is bounded by fuel; `none` is exhausted fuel or a hit
`assert False` (e.g. a dangling name in `goto_event_or_group`). -/

inductive Out where
  | raw (s : String)
  | goto (typ : String) (id : String)
  | anchorDecl (typ : String) (key : String)
deriving DecidableEq, Repr

/-- The read-only state the render phase consumes: the three registries,
the counters computed by `init_nesting`, and the root / quest-pin sets. -/
structure RenderCtx where
  event_dict : List (String × Event)
  group_dict : List (String × List (Nat × String))
  ship_dict : List (String × Ship)
  eventN : String → Nat
  groupN : String → Nat
  root_event_set : List String
  quest_events_set : List String
  quest_groups_set : List String

/-- `can_inline_event` (generator.py:1138-1142). -/
def can_inline_event (ctx : RenderCtx) (name : String) : Bool :=
  str_starts_with name ("evt") ||
    (ctx.eventN name == 1 &&
      !ctx.root_event_set.contains name &&
      !ctx.quest_events_set.contains name)

/-- `can_inline_group` (generator.py:1144-1147). -/
def can_inline_group (ctx : RenderCtx) (name : String) : Bool :=
  ctx.groupN name == 1 && !ctx.quest_groups_set.contains name

/-- The text line of `output_event` (generator.py:1182-1186): bare text
for roots and events with at least two choices, otherwise wrapped in the
collapsed `div.inner`. -/
def event_text_out (ctx : RenderCtx) (id : String) (ev : Event) : Out :=
  if ctx.root_event_set.contains id ||
      (match ev.choices with
       | some cs => decide (2 ≤ cs.length)
       | none => false) then
    Out.raw ev.text_html
  else
    Out.raw (("<div class=\"inner\">") ++ ev.text_html ++ ("</div>"))

/-- The `<li><em ...>` line of one choice (generator.py:1193-1194). -/
def choice_li (is_blue : Bool) (text : String) : String :=
  ("<li><em ") ++ (if is_blue then ("class=\"blue\"") else ("")) ++ (">") ++
    text ++ ("</em>")

/-- The `<li> {n}/{m}` line of one group case (generator.py:1211). -/
def case_li (n m : Nat) : String :=
  ("<li> ") ++ toString n ++ ("/") ++ toString m

mutual

/-- `output_event` (generator.py:1177-1198). -/
def output_event : Nat → RenderCtx → String → Option (List Out)
  | 0, _, _ => none
  | fuel + 1, ctx, id =>
      match dictGet ctx.event_dict id with
      | none => none
      | some ev =>
          match ev.choices with
          | none => some [event_text_out ctx id ev, Out.raw ev.actions_html]
          | some cs =>
              if cs.isEmpty then
                some [event_text_out ctx id ev, Out.raw ev.actions_html]
              else
                match render_choices fuel ctx cs with
                | none => none
                | some body =>
                    some ([event_text_out ctx id ev,
                           Out.raw ev.actions_html,
                           Out.raw ("<ol class=\"choice\">")] ++
                          body ++ [Out.raw ("</ol>")])

/-- The `for (text, is_blue, nextID) in event.choices` loop
(generator.py:1192-1197). -/
def render_choices : Nat → RenderCtx →
    List (String × Bool × Option String) → Option (List Out)
  | 0, _, _ => none
  | _ + 1, _, [] => some []
  | fuel + 1, ctx, (text, is_blue, nextID) :: rest =>
      match goto_group_or_event fuel ctx nextID with
      | none => none
      | some inner =>
          match render_choices fuel ctx rest with
          | none => none
          | some tail =>
              some ([Out.raw (choice_li is_blue text), Out.raw ("<div>")] ++
                    inner ++ [Out.raw ("</div>")] ++ tail)

/-- `goto_group_or_event` (generator.py:1149-1161): group-namespace
priority. A `None` id (empty choice) matches neither dictionary and hits
the `assert False`. -/
def goto_group_or_event : Nat → RenderCtx → Option String → Option (List Out)
  | 0, _, _ => none
  | fuel + 1, ctx, b =>
      match b with
      | none => none
      | some name =>
          if dictHas ctx.group_dict name then
            if can_inline_group ctx name then output_group fuel ctx name
            else some [Out.goto ("list") name]
          else if dictHas ctx.event_dict name then
            if can_inline_event ctx name then output_event fuel ctx name
            else some [Out.goto ("event") name]
          else none

/-- `goto_event_or_group` (generator.py:1163-1175): event-namespace
priority. -/
def goto_event_or_group : Nat → RenderCtx → String → Option (List Out)
  | 0, _, _ => none
  | fuel + 1, ctx, name =>
      if dictHas ctx.event_dict name then
        if can_inline_event ctx name then output_event fuel ctx name
        else some [Out.goto ("event") name]
      else if dictHas ctx.group_dict name then
        if can_inline_group ctx name then output_group fuel ctx name
        else some [Out.goto ("list") name]
      else none

/-- `output_group` (generator.py:1200-1215): the weight denominator, the
`ul.random` wrapper, one `n/m` line and recursive dispatch per case —
unconditionally, whatever the number of cases. -/
def output_group : Nat → RenderCtx → String → Option (List Out)
  | 0, _, _ => none
  | fuel + 1, ctx, id =>
      match dictGet ctx.group_dict id with
      | none => none
      | some g =>
          match render_cases fuel ctx (weight_sum g) g with
          | none => none
          | some body =>
              some ([Out.raw ("<ul class=\"random\">")] ++ body ++
                    [Out.raw ("</ul>")])

/-- The `for (n, nextID) in group` loop of `output_group`
(generator.py:1210-1213). -/
def render_cases : Nat → RenderCtx → Nat → List (Nat × String) →
    Option (List Out)
  | 0, _, _, _ => none
  | _ + 1, _, _, [] => some []
  | fuel + 1, ctx, m, (n, nextID) :: rest =>
      match goto_event_or_group fuel ctx nextID with
      | none => none
      | some inner =>
          match render_cases fuel ctx m rest with
          | none => none
          | some tail => some (Out.raw (case_li n m) :: (inner ++ tail))

/-- One present ship outcome (the local `case` of `output_ship`,
generator.py:1221-1225), folded over the outcome list. -/
def render_ship_cases : Nat → RenderCtx → List (Option String × String) →
    Option (List Out)
  | 0, _, _ => none
  | _ + 1, _, [] => some []
  | fuel + 1, ctx, (slot, msg) :: rest =>
      match slot with
      | none => render_ship_cases fuel ctx rest
      | some evtID =>
          match goto_group_or_event fuel ctx (some evtID) with
          | none => none
          | some inner =>
              match render_ship_cases fuel ctx rest with
              | none => none
              | some tail =>
                  some ([Out.raw (("<li><em>") ++ msg ++ ("</em>")),
                         Out.raw ("<div>")] ++ inner ++
                        [Out.raw ("</div>")] ++ tail)

/-- `output_ship` (generator.py:1217-1237): the four outcomes in fixed
order, each rendered only when present. -/
def output_ship : Nat → RenderCtx → String → Option (List Out)
  | 0, _, _ => none
  | fuel + 1, ctx, id =>
      match dictGet ctx.ship_dict id with
      | none => none
      | some sh =>
          match render_ship_cases fuel ctx
              [(sh.destroyed, ("You destroy the enemy ship")),
               (sh.dead_crew, ("You kill the enemy crew")),
               (sh.gotaway, ("The enemy ship escaped")),
               (sh.surrender, ("The enemy ship offers to surrender"))] with
          | none => none
          | some body =>
              some ([Out.raw ("<ul class=\"fight\">")] ++ body ++
                    [Out.raw ("</ul>")])

end

/-- Stable insertion for the alphabetical top-level sort: a new element
goes after every element whose key is not greater, which reproduces the
stable `items.sort(key = lambda x: x[0])` of generator.py:1336 when the
elements are inserted left to right. -/
def ordered_insert (x : String × Bool) :
    List (String × Bool) → List (String × Bool)
  | [] => [x]
  | y :: rest =>
      if x.1 < y.1 then x :: y :: rest else y :: ordered_insert x rest

/-- `items` of `output_html` (generator.py:1333-1336): every event key
tagged `true`, every group key tagged `false`, stably sorted by key. -/
def top_items (ctx : RenderCtx) : List (String × Bool) :=
  ((ctx.event_dict.map fun kv => (kv.1, true)) ++
   (ctx.group_dict.map fun kv => (kv.1, false))).foldl
    (fun acc x => ordered_insert x acc) []

/-- Stable insertion for `sorted(ship_dict.keys())`. -/
def key_insert (x : String) : List String → List String
  | [] => [x]
  | y :: rest => if x < y then x :: y :: rest else y :: key_insert x rest

def sorted_keys (ks : List String) : List String :=
  ks.foldl (fun acc x => key_insert x acc) []

/-- The Events section loop of `output_html` (generator.py:1339-1353):
skip inlinable entries, otherwise an anchor, an indented div, the full
block, and the closing div. -/
def render_top_items (fuel : Nat) (ctx : RenderCtx) :
    List (String × Bool) → Option (List Out)
  | [] => some []
  | (key, isEvent) :: rest =>
      if isEvent then
        if can_inline_event ctx key then render_top_items fuel ctx rest
        else
          match output_event fuel ctx key with
          | none => none
          | some body =>
              match render_top_items fuel ctx rest with
              | none => none
              | some tail =>
                  some ([Out.anchorDecl ("event") key,
                         Out.raw ("<div class=\"indent\">")] ++ body ++
                        [Out.raw ("</div>")] ++ tail)
      else
        if can_inline_group ctx key then render_top_items fuel ctx rest
        else
          match output_group fuel ctx key with
          | none => none
          | some body =>
              match render_top_items fuel ctx rest with
              | none => none
              | some tail =>
                  some ([Out.anchorDecl ("list") key,
                         Out.raw ("<div class=\"indent\">")] ++ body ++
                        [Out.raw ("</div>")] ++ tail)

/-- The Fights section loop of `output_html` (generator.py:1357-1361):
every ship, always anchored at the top level. -/
def render_top_ships (fuel : Nat) (ctx : RenderCtx) :
    List String → Option (List Out)
  | [] => some []
  | key :: rest =>
      match output_ship fuel ctx key with
      | none => none
      | some body =>
          match render_top_ships fuel ctx rest with
          | none => none
          | some tail =>
              some ([Out.anchorDecl ("ship") key,
                     Out.raw ("<div class=\"indent\">")] ++ body ++
                    [Out.raw ("</div>")] ++ tail)

/-- `output_html` (generator.py:1245-1365) without its constant
header/footer text: the sorted Events section, then the sorted Fights
section. -/
def output_html (fuel : Nat) (ctx : RenderCtx) : Option (List Out) :=
  match render_top_items fuel ctx (top_items ctx) with
  | none => none
  | some evs =>
      match render_top_ships fuel ctx
          (sorted_keys (ctx.ship_dict.map Prod.fst)) with
      | none => none
      | some shs => some (evs ++ shs)

/-! ## Statement helpers -/

/-- A token stream contains no anchor declaration at all. -/
def no_anchor (l : List Out) : Prop :=
  ∀ t k, Out.anchorDecl t k ∉ l

/-- An optional token stream contains no anchor declaration. -/
def no_anchor_opt (r : Option (List Out)) : Prop :=
  ∀ l, r = some l → no_anchor l

/-- An optional token stream contains no top-level event anchor for
`name`. -/
def no_event_anchor_for (name : String) (r : Option (List Out)) : Prop :=
  ∀ l, r = some l → Out.anchorDecl ("event") name ∉ l

/-- Every name of `rs2` was already in `rs` or names a registered event:
the root-resolver invariant of claim C7. -/
def roots_only_events (ed : List (String × Event)) (rs : List String)
    (r : Option (List String)) : Prop :=
  ∀ rs2, r = some rs2 → ∀ x ∈ rs2, x ∈ rs ∨ dictHas ed x = true

/-- Does a token stream contain a `goto_url` link line? -/
def has_goto (l : List Out) : Bool :=
  l.any fun o =>
    match o with
    | Out.goto _ _ => true
    | _ => false

/-- A rendered group whose output starts with the `ul.random` wrapper,
then the `w/w` weight-fraction line, and closes the wrapper: the shape the
amended claim C6 asserts for single-case groups. -/
def single_case_wrapped (w : Nat) (r : Option (List Out)) : Prop :=
  ∀ out, r = some out →
    ∃ body,
      out = [Out.raw ("<ul class=\"random\">"), Out.raw (case_li w w)] ++
        body ++ [Out.raw ("</ul>")]

/-! ## Concrete instances used in witnesses and counterexamples -/

/-- The registered form of an empty event (`Nothing happens`). -/
def evNothing : Event :=
  Event.mk ("t") ("<ul class=\"result\"><li>Nothing happens</ul>") none none

/-- A structurally different event. -/
def evOther : Event := Event.mk ("u") ("b") none none

def edC4 : List (String × Event) := [(("A"), evNothing), (("A2"), evNothing)]

def gdC4 : List (String × List (Nat × String)) :=
  [(("G"), [(1, ("A")), (1, ("A2"))])]

def edC5 : List (String × Event) :=
  [(("A"), evNothing), (("A2"), evNothing), (("B"), evOther)]

/-- An `evt`-prefixed event and an ordinary event, both of in-degree 2. -/
def ctxC3 : RenderCtx :=
  { event_dict := [(("evtA"), evNothing), (("FOO"), evNothing)]
    group_dict := []
    ship_dict := []
    eventN := fun _ => 2
    groupN := fun _ => 0
    root_event_set := []
    quest_events_set := []
    quest_groups_set := [] }

/-- A single-case group `G = [(1, E)]` over a trivial event. -/
def ctxC6 : RenderCtx :=
  { event_dict := [(("E"), evNothing)]
    group_dict := [(("G"), [(1, ("E"))])]
    ship_dict := []
    eventN := fun _ => 1
    groupN := fun _ => 1
    root_event_set := []
    quest_events_set := []
    quest_groups_set := [] }

def edC7 : List (String × Event) := [(("E"), evNothing)]

def gdC7 : List (String × List (Nat × String)) := [(("G"), [(1, ("E"))])]

/-- A registry holding an `evt`-prefixed event of in-degree 2, an ordinary
event, and a ship whose destroyed outcome references the `evt` event. -/
def ctxC10 : RenderCtx :=
  { event_dict := [(("evtA"), evNothing), (("KEEP"), evNothing)]
    group_dict := []
    ship_dict := [(("SHIP"), Ship.mk (some ("evtA")) none none none)]
    eventN := fun _ => 2
    groupN := fun _ => 0
    root_event_set := []
    quest_events_set := []
    quest_groups_set := [] }

/-- A build state already holding a group named `G`. -/
def stC9 : BuildState :=
  { initBuildState with group_dict := [(("G"), [(1, ("OLD"))])] }

/-- An override group redefining `G`. -/
def gC9 : RawGroup := RawGroup.mk ("OVERRIDE_G") [RawEvent.load ("E")]

/-- One document declaring `G` and then overriding it. -/
def docsC9 : List RawDoc :=
  [RawDoc.mk [] [RawGroup.mk ("G") [RawEvent.load ("OLD")], gC9] []]

/-! ## Shared lemmas -/

theorem dictGet_dictSet_self {α : Type} (d : List (String × α)) (k : String)
    (v : α) : dictGet (dictSet d k v) k = some v := by
  induction d with
  | nil => simp [dictSet, dictGet]
  | cons kv rest ih =>
      obtain ⟨k2, v2⟩ := kv
      by_cases h : k2 = k
      · simp [dictSet, dictGet, h]
      · simp [dictSet, dictGet, h, ih]

theorem item_modify_one_error (d : Bool) (w : String) (lo hi : Int) :
    exceptIsError (item_modify_one d w lo hi) = true ↔
      straddles_zero lo hi := by
  unfold item_modify_one straddles_zero
  by_cases h1 : (lo ≥ 0 ∧ hi ≥ 0)
  · have hb : (decide (lo ≥ 0) && decide (hi ≥ 0)) = true := by
      simp [h1.1, h1.2]
    simp only [ge_iff_le] at hb ⊢
    simp [hb, exceptIsError, h1]
  · have hb1 : (decide (0 ≤ lo) && decide (0 ≤ hi)) = false := by
      simp only [ge_iff_le, not_and_or] at h1
      rcases h1 with h | h <;> simp [h]
    by_cases h2 : (lo ≤ 0 ∧ hi ≤ 0)
    · have hb2 : (decide (lo ≤ 0) && decide (hi ≤ 0)) = true := by
        simp [h2.1, h2.2]
      simp only [ge_iff_le]
      simp [hb1, hb2, exceptIsError, h2]
    · have hb2 : (decide (lo ≤ 0) && decide (hi ≤ 0)) = false := by
        simp only [not_and_or] at h2
        rcases h2 with h | h <;> simp [h]
      simp only [ge_iff_le]
      simp [hb1, hb2, exceptIsError, h1, h2]

theorem item_modify_pass_error (d : Bool) (items : List (String × Int × Int)) :
    exceptIsError (item_modify_pass d items) = true ↔
      ∃ e ∈ items, straddles_zero e.2.1 e.2.2 := by
  induction items with
  | nil => simp [item_modify_pass, exceptIsError]
  | cons e rest ih =>
      obtain ⟨w, lo, hi⟩ := e
      simp only [item_modify_pass]
      cases h1 : item_modify_one d w lo hi with
      | error s =>
          simp only [exceptIsError, true_iff]
          refine ⟨(w, lo, hi), List.mem_cons_self .., ?_⟩
          exact (item_modify_one_error d w lo hi).1 (by rw [h1]; rfl)
      | ok a =>
          have hns : ¬ straddles_zero lo hi := by
            intro hs
            have := (item_modify_one_error d w lo hi).2 hs
            rw [h1] at this
            exact absurd this (by simp [exceptIsError])
          cases h2 : item_modify_pass d rest with
          | error s2 =>
              have hr : ∃ e ∈ rest, straddles_zero e.2.1 e.2.2 :=
                ih.1 (by rw [h2]; rfl)
              simp only [exceptIsError, true_iff]
              obtain ⟨e2, he2, hs2⟩ := hr
              exact ⟨e2, List.mem_cons_of_mem _ he2, hs2⟩
          | ok b =>
              have hnr : ¬ ∃ e ∈ rest, straddles_zero e.2.1 e.2.2 := by
                intro hr
                have := ih.2 hr
                rw [h2] at this
                exact absurd this (by simp [exceptIsError])
              simp only [exceptIsError, Bool.false_eq_true, false_iff]
              intro hr
              obtain ⟨e2, he2, hs2⟩ := hr
              rcases List.mem_cons.1 he2 with he2 | he2
              · subst he2; exact hns hs2
              · exact hnr ⟨e2, he2, hs2⟩

/-! ## Claim C8 -/

/-- C8: processing the items of an `item_modify` node aborts fatally
(`abort("nonsensical resource range")`) exactly when some item's integer
bounds straddle zero inconsistently — neither both bounds `≥ 0` nor both
bounds `≤ 0`; in particular an item with both bounds on the same side of
zero (inclusive) never triggers the fatal error. -/
theorem c8_item_modify_abort_iff_straddle
    (items : List (String × Int × Int)) :
    exceptIsError (item_modify_actions items) = true ↔
      ∃ e ∈ items, straddles_zero e.2.1 e.2.2 := by
  unfold item_modify_actions
  cases h1 : item_modify_pass false items with
  | error s =>
      simp only [exceptIsError, true_iff]
      exact (item_modify_pass_error false items).1 (by rw [h1]; rfl)
  | ok m =>
      have hno : ¬ ∃ e ∈ items, straddles_zero e.2.1 e.2.2 := by
        intro hr
        have := (item_modify_pass_error false items).2 hr
        rw [h1] at this
        exact absurd this (by simp [exceptIsError])
      cases h2 : item_modify_pass true items with
      | error s2 =>
          simp only [exceptIsError, true_iff]
          exact (item_modify_pass_error true items).1 (by rw [h2]; rfl)
      | ok p => simpa [exceptIsError] using hno

/-! ## Claim C1 -/

/-- C1 counterexample: for the name `X` present in both the event and the
group key sets, the quest-marker fragment resolves the target into the
*event* namespace (recording it in `quest_events_set` and linking the
event anchor), not into the group namespace as the claim states. -/
theorem c1_counterexample_quest_prefers_event :
    process_quest [("X")] [("X")] (QuestSets.mk [] []) ("X") =
      some (QuestSets.mk [("X")] [], QuestRef.toEventKey ("X")) ∧
    QuestRef.toEventKey ("X") ≠ QuestRef.toGroupKey ("X") := by
  constructor
  · decide
  · decide

/-- C1 (amended): resolving a quest-marker target uses *event*-namespace
priority — a name in `event_keys` is pinned in `quest_events_set` and
linked as an event; only a name absent from `event_keys` but present in
`group_keys` is pinned in `quest_groups_set` and linked as a group; any
other name hits `assert False`. -/
theorem c1_amended_quest_event_priority (ek gk : List String)
    (qs : QuestSets) (id : String) :
    (ek.contains id = true →
      process_quest ek gk qs id =
        some ({ qs with quest_events_set := set_add qs.quest_events_set id },
              QuestRef.toEventKey id)) ∧
    (ek.contains id = false → gk.contains id = true →
      process_quest ek gk qs id =
        some ({ qs with quest_groups_set := set_add qs.quest_groups_set id },
              QuestRef.toGroupKey id)) ∧
    (ek.contains id = false → gk.contains id = false →
      process_quest ek gk qs id = none) := by
  refine ⟨fun h1 => ?_, fun h1 h2 => ?_, fun h1 h2 => ?_⟩
  · simp at h1
    simp [process_quest, h1]
  · simp at h1 h2
    simp [process_quest, h1, h2]
  · simp at h1 h2
    simp [process_quest, h1, h2]

theorem c1_amended_quest_event_priority_witness :
    process_quest [("E")] [] (QuestSets.mk [] []) ("E") =
      some (QuestSets.mk [("E")] [], QuestRef.toEventKey ("E")) := by
  have h :=
    (c1_amended_quest_event_priority [("E")] [] (QuestSets.mk [] [])
      ("E")).1 (by decide)
  rw [h]
  decide

/-! ## Canonicalizer lemmas -/

theorem weight_sum_fold_case (ed : List (String × Event)) (c : Nat)
    (id : String) (acc : List (Nat × String)) :
    weight_sum (fold_case ed c id acc) = weight_sum acc + c := by
  induction acc with
  | nil => simp [fold_case, weight_sum]
  | cons c2 rest ih =>
      obtain ⟨c2, id2⟩ := c2
      by_cases h : events_equal ed id id2 = true
      · simp [fold_case, h, weight_sum]
        omega
      · simp only [Bool.not_eq_true] at h
        simp [fold_case, h, weight_sum] at ih ⊢
        omega

theorem weight_sum_merge_aux (ed : List (String × Event))
    (g acc : List (Nat × String)) :
    weight_sum (g.foldl (fun acc ci => fold_case ed ci.1 ci.2 acc) acc) =
      weight_sum acc + weight_sum g := by
  induction g generalizing acc with
  | nil => simp [weight_sum]
  | cons ci rest ih =>
      simp only [List.foldl_cons]
      rw [ih, weight_sum_fold_case]
      simp [weight_sum]
      omega

theorem weight_sum_merge_group (ed : List (String × Event))
    (g : List (Nat × String)) :
    weight_sum (merge_group ed g) = weight_sum g := by
  unfold merge_group
  rw [weight_sum_merge_aux]
  simp [weight_sum]

theorem dictGet_canonicalize_groups (ed : List (String × Event))
    (gd : List (String × List (Nat × String))) (k : String) :
    dictGet (canonicalize_groups ed gd) k =
      (dictGet gd k).map
        (fun g => if contains_duplicate ed g then merge_group ed g else g) := by
  induction gd with
  | nil => simp [canonicalize_groups, dictGet]
  | cons kv rest ih =>
      by_cases h : kv.1 = k
      · simp [canonicalize_groups, dictGet, h]
      · simp only [canonicalize_groups, List.map_cons] at ih ⊢
        simp [dictGet, h, ih]

/-- `events_equal` is symmetric in its two names. -/
theorem events_equal_symm (ed : List (String × Event)) (a b : String) :
    events_equal ed a b = events_equal ed b a := by
  unfold events_equal
  cases dictGet ed a <;> cases dictGet ed b <;> simp
  constructor <;> (intro h; exact h.symm)

/-- Shape of one `fold_case` step: either some kept case absorbed the
weight (the kept names are unchanged), or the new case was appended and
matches no kept case. -/
theorem fold_case_shape (ed : List (String × Event)) (c : Nat) (id : String)
    (acc : List (Nat × String)) :
    (fold_case ed c id acc).map Prod.snd = acc.map Prod.snd ∨
      (fold_case ed c id acc = acc ++ [(c, id)] ∧
        ∀ y ∈ acc, events_equal ed id y.2 = false) := by
  induction acc with
  | nil => right; simp [fold_case]
  | cons hd rest ih =>
      obtain ⟨c2, id2⟩ := hd
      by_cases h : events_equal ed id id2 = true
      · left; simp [fold_case, h]
      · simp only [Bool.not_eq_true] at h
        rcases ih with ih | ⟨ih1, ih2⟩
        · left; simp [fold_case, h, ih]
        · right
          constructor
          · simp [fold_case, h, ih1]
          · intro y hy
            rcases List.mem_cons.1 hy with hy | hy
            · rw [hy]; exact h
            · exact ih2 y hy

/-- The pairwise-distinct invariant `merge_group`'s accumulator keeps. -/
theorem fold_case_pairwise (ed : List (String × Event)) (c : Nat)
    (id : String) (acc : List (Nat × String))
    (h : List.Pairwise (fun x y => events_equal ed x y = false)
      (acc.map Prod.snd)) :
    List.Pairwise (fun x y => events_equal ed x y = false)
      ((fold_case ed c id acc).map Prod.snd) := by
  rcases fold_case_shape ed c id acc with hs | ⟨hs1, hs2⟩
  · rw [hs]; exact h
  · rw [hs1]
    rw [List.map_append]
    rw [List.pairwise_append]
    refine ⟨h, by simp, ?_⟩
    intro a ha b hb
    simp only [List.map_cons, List.map_nil, List.mem_singleton] at hb
    subst hb
    obtain ⟨y, hy, hy2⟩ := List.mem_map.1 ha
    rw [← hy2, events_equal_symm]
    exact hs2 y hy

theorem merge_group_pairwise_aux (ed : List (String × Event))
    (g acc : List (Nat × String))
    (h : List.Pairwise (fun x y => events_equal ed x y = false)
      (acc.map Prod.snd)) :
    List.Pairwise (fun x y => events_equal ed x y = false)
      ((g.foldl (fun acc ci => fold_case ed ci.1 ci.2 acc) acc).map
        Prod.snd) := by
  induction g generalizing acc with
  | nil => exact h
  | cons ci rest ih =>
      simp only [List.foldl_cons]
      exact ih _ (fold_case_pairwise ed ci.1 ci.2 acc h)

theorem contains_duplicate_eq_false_of_pairwise (ed : List (String × Event))
    (l : List (Nat × String))
    (h : List.Pairwise (fun x y => events_equal ed x y = false)
      (l.map Prod.snd)) :
    contains_duplicate ed l = false := by
  induction l with
  | nil => simp [contains_duplicate]
  | cons hd rest ih =>
      simp only [List.map_cons, List.pairwise_cons] at h
      obtain ⟨h1, h2⟩ := h
      simp only [contains_duplicate, Bool.or_eq_false_iff]
      refine ⟨?_, ih h2⟩
      rw [List.any_eq_false]
      intro c2 hc2
      simp only [Bool.not_eq_true]
      exact h1 c2.2 (List.mem_map_of_mem Prod.snd hc2)

/-! ## Claim C4 -/

/-- C4: weight conservation — for every group of the registry, its case
list after `canonicalize_groups` has the same weight sum as before. -/
theorem c4_weight_conservation (ed : List (String × Event))
    (gd : List (String × List (Nat × String))) (k : String)
    (g : List (Nat × String)) (h : dictGet gd k = some g) :
    ∃ g2, dictGet (canonicalize_groups ed gd) k = some g2 ∧
      weight_sum g2 = weight_sum g := by
  rw [dictGet_canonicalize_groups, h]
  by_cases hd : contains_duplicate ed g = true
  · exact ⟨merge_group ed g, by simp [hd], weight_sum_merge_group ed g⟩
  · simp only [Bool.not_eq_true] at hd
    exact ⟨g, by simp [hd], rfl⟩

theorem c4_weight_conservation_witness :
    dictGet gdC4 ("G") = some [(1, ("A")), (1, ("A2"))] ∧
    ∃ g2, dictGet (canonicalize_groups edC4 gdC4) ("G") = some g2 ∧
      weight_sum g2 = weight_sum [(1, ("A")), (1, ("A2"))] :=
  ⟨by decide,
   c4_weight_conservation edC4 gdC4 ("G") [(1, ("A")), (1, ("A2"))]
     (by decide)⟩

/-! ## Claim C5 -/

/-- C5: canonicalization correctness — `merge_group` leaves no pair of
cases with structurally equal resolved events (every such pair has been
folded together), and on a case list `[(1,A),(1,A2),(1,B)]` whose first
two targets resolve to the same structural event while `B` is distinct it
yields exactly the two cases `[(2,A),(1,B)]`: the weight accumulates on
the first occurrence and the later duplicate case is dropped, preserving
order of first occurrences. -/
theorem c5_canonicalization_correct :
    (∀ (ed : List (String × Event)) (g : List (Nat × String)),
      contains_duplicate ed (merge_group ed g) = false) ∧
    (∀ (ed : List (String × Event)) (a a2 b : String) (ea eb : Event),
      a ≠ a2 →
      dictGet ed a = some ea → dictGet ed a2 = some ea →
      dictGet ed b = some eb → ea ≠ eb →
      merge_group ed [(1, a), (1, a2), (1, b)] = [(2, a), (1, b)]) := by
  constructor
  · intro ed g
    refine contains_duplicate_eq_false_of_pairwise ed _ ?_
    exact merge_group_pairwise_aux ed g [] (by simp)
  · intro ed a a2 b ea eb hname ha ha2 hb hne
    have h1 : events_equal ed a2 a = true := by
      simp [events_equal, ha, ha2]
    have h2 : events_equal ed b a = false := by
      simp only [events_equal, hb, ha]
      simp only [beq_eq_false_iff_ne, ne_eq]
      exact fun h => hne h.symm
    simp [merge_group, fold_case, h1, h2]

theorem c5_canonicalization_correct_witness :
    contains_duplicate edC5
      (merge_group edC5 [(1, ("A")), (1, ("A2")), (1, ("B"))]) = false ∧
    merge_group edC5 [(1, ("A")), (1, ("A2")), (1, ("B"))] =
      [(2, ("A")), (1, ("B"))] :=
  ⟨c5_canonicalization_correct.1 edC5 [(1, ("A")), (1, ("A2")), (1, ("B"))],
   c5_canonicalization_correct.2 edC5 ("A") ("A2") ("B") evNothing evOther
     (by decide) (by decide) (by decide) (by decide) (by decide)⟩

/-! ## Claim C2 -/

/-- C2: inside-group resolution uses event-namespace priority, and the
same rule is applied at both call sites — the reference-counting step for
a group case (`init_nesting`, generator.py:1021-1025) and the rendering
dispatch for a group entry (`goto_event_or_group`, generator.py:1163-1175)
both factor through the spec's `insideGroup` resolver: an existing event
name resolves to that event, else an existing group name to that group,
else it is an error (no count; `assert False` when rendering). -/
theorem c2_inside_group_event_priority
    (ed : List (String × Event)) (gd : List (String × List (Nat × String)))
    (c : Counts) (b : String) (fuel : Nat) (ctx : RenderCtx)
    (name : String) :
    (count_group_case ed gd c b =
      match spec_resolve_inside_group ed gd b with
      | some (ResolvedRef.toEvent x) => { c with eventN := bump c.eventN x }
      | some (ResolvedRef.toGroup x) => { c with groupN := bump c.groupN x }
      | none => c) ∧
    (goto_event_or_group (fuel + 1) ctx name =
      match spec_resolve_inside_group ctx.event_dict ctx.group_dict name with
      | some (ResolvedRef.toEvent x) =>
          if can_inline_event ctx x then output_event fuel ctx x
          else some [Out.goto ("event") x]
      | some (ResolvedRef.toGroup x) =>
          if can_inline_group ctx x then output_group fuel ctx x
          else some [Out.goto ("list") x]
      | none => none) := by
  constructor
  · unfold count_group_case spec_resolve_inside_group
    by_cases h1 : dictHas ed b = true
    · simp [h1]
    · simp only [Bool.not_eq_true] at h1
      by_cases h2 : dictHas gd b = true
      · simp [h1, h2]
      · simp only [Bool.not_eq_true] at h2
        simp [h1, h2]
  · simp only [goto_event_or_group]
    unfold spec_resolve_inside_group
    by_cases h1 : dictHas ctx.event_dict name = true
    · simp [h1]
    · simp only [Bool.not_eq_true] at h1
      by_cases h2 : dictHas ctx.group_dict name = true
      · simp [h1, h2]
      · simp only [Bool.not_eq_true] at h2
        simp [h1, h2]

/-! ## Root-resolver lemmas -/

theorem add_root_invariant : ∀ (fuel : Nat),
    (∀ ed gd rs name,
      roots_only_events ed rs (add_root_event fuel ed gd rs name)) ∧
    (∀ ed gd rs cases,
      roots_only_events ed rs (add_root_cases fuel ed gd rs cases)) := by
  intro fuel
  induction fuel with
  | zero =>
      constructor
      · intro ed gd rs name rs2 h
        simp [add_root_event] at h
      · intro ed gd rs cases
        cases cases with
        | nil =>
            intro rs2 h x hx
            simp only [add_root_cases, Option.some.injEq] at h
            subst h
            exact Or.inl hx
        | cons hd rest =>
            intro rs2 h
            obtain ⟨w, ev⟩ := hd
            simp [add_root_cases, add_root_event] at h
  | succ fuel ih =>
      have hEvent : ∀ ed gd rs name,
          roots_only_events ed rs (add_root_event (fuel + 1) ed gd rs name) := by
        intro ed gd rs name rs2 h x hx
        simp only [add_root_event] at h
        by_cases hed : dictHas ed name = true
        · rw [if_pos hed] at h
          simp only [Option.some.injEq] at h
          subst h
          by_cases hmem : rs.contains name = true
          · rw [if_pos hmem] at hx
            exact Or.inl hx
          · simp only [Bool.not_eq_true] at hmem
            rw [hmem] at hx
            simp only [Bool.false_eq_true, if_false] at hx
            rcases List.mem_append.1 hx with hx | hx
            · exact Or.inl hx
            · simp only [List.mem_singleton] at hx
              subst hx
              exact Or.inr hed
        · simp only [Bool.not_eq_true] at hed
          rw [if_neg (by simp [hed])] at h
          cases hgd : dictGet gd name with
          | none => rw [hgd] at h; cases h
          | some cases =>
              rw [hgd] at h
              exact ih.2 ed gd rs cases rs2 h x hx
      refine ⟨hEvent, ?_⟩
      intro ed gd rs cases
      induction cases generalizing rs with
      | nil =>
          intro rs2 h x hx
          simp only [add_root_cases, Option.some.injEq] at h
          subst h
          exact Or.inl hx
      | cons hd rest ihc =>
          intro rs2 h x hx
          obtain ⟨w, ev⟩ := hd
          simp only [add_root_cases] at h
          cases hev : add_root_event (fuel + 1) ed gd rs ev with
          | none => rw [hev] at h; cases h
          | some rsMid =>
              rw [hev] at h
              rcases ihc rsMid rs2 h x hx with hx2 | hx2
              · rcases hEvent ed gd rs ev rsMid hev x hx2 with hx3 | hx3
                · exact Or.inl hx3
                · exact Or.inr hx3
              · exact Or.inr hx2

/-! ## Claim C7 -/

/-- C7: root resolution — a name registered as an event is itself added
to the root list (once) and recursion stops; a name registered only as a
group recurses through the group's case targets instead; `add_root_group`
is the same function as `add_root_event`; and consequently every name the
resolver adds to the root set names a registered event (roots are never
group names). -/
theorem c7_root_resolution (fuel : Nat) (ed : List (String × Event))
    (gd : List (String × List (Nat × String)))
    (cases : List (Nat × String)) (rs : List String) (name : String) :
    (dictHas ed name = true →
      add_root_event (fuel + 1) ed gd rs name =
        some (if rs.contains name then rs else rs ++ [name])) ∧
    (dictHas ed name = false → dictGet gd name = some cases →
      add_root_event (fuel + 1) ed gd rs name =
        add_root_cases fuel ed gd rs cases) ∧
    (add_root_group (fuel + 1) ed gd rs name =
      add_root_event (fuel + 1) ed gd rs name) ∧
    roots_only_events ed rs (add_root_event (fuel + 1) ed gd rs name) := by
  refine ⟨fun h => ?_, fun h1 h2 => ?_, rfl, ?_⟩
  · simp [add_root_event, h]
  · simp [add_root_event, h1, h2]
  · exact (add_root_invariant (fuel + 1)).1 ed gd rs name

theorem c7_root_resolution_witness :
    add_root_event 2 edC7 gdC7 [] ("E") = some [("E")] ∧
    add_root_event 2 edC7 gdC7 [] ("G") =
      add_root_cases 1 edC7 gdC7 [] [(1, ("E"))] ∧
    roots_only_events edC7 []
      (add_root_event 2 edC7 gdC7 [] ("G")) := by
  refine ⟨?_, ?_, ?_⟩
  · have h := (c7_root_resolution 1 edC7 gdC7 [] [] ("E")).1 (by decide)
    rw [h]
    decide
  · exact (c7_root_resolution 1 edC7 gdC7 [(1, ("E"))] [] ("G")).2.1
      (by decide) (by decide)
  · exact (c7_root_resolution 1 edC7 gdC7 [] [] ("G")).2.2.2

/-! ## Renderer lemmas: the recursive output functions never emit anchors
(anchors come only from the top-level `output_html` loops). -/

theorem no_anchor_nil : no_anchor [] := by
  intro t k h
  cases h

theorem no_anchor_append {a b : List Out} (ha : no_anchor a)
    (hb : no_anchor b) : no_anchor (a ++ b) := by
  intro t k h
  rcases List.mem_append.1 h with h | h
  · exact ha t k h
  · exact hb t k h

theorem no_anchor_cons_raw (s : String) {l : List Out} (h : no_anchor l) :
    no_anchor (Out.raw s :: l) := by
  intro t k hm
  rcases List.mem_cons.1 hm with hm | hm
  · cases hm
  · exact h t k hm

theorem no_anchor_goto (t2 i : String) : no_anchor [Out.goto t2 i] := by
  intro t k hm
  rcases List.mem_cons.1 hm with hm | hm
  · cases hm
  · cases hm

theorem no_anchor_cons_text (ctx : RenderCtx) (id : String) (ev : Event)
    {l : List Out} (h : no_anchor l) :
    no_anchor (event_text_out ctx id ev :: l) := by
  intro t k hm
  rcases List.mem_cons.1 hm with hm | hm
  · unfold event_text_out at hm
    split at hm <;> cases hm
  · exact h t k hm

theorem render_no_anchor : ∀ (fuel : Nat),
    (∀ ctx id, no_anchor_opt (output_event fuel ctx id)) ∧
    (∀ ctx cs, no_anchor_opt (render_choices fuel ctx cs)) ∧
    (∀ ctx b, no_anchor_opt (goto_group_or_event fuel ctx b)) ∧
    (∀ ctx n, no_anchor_opt (goto_event_or_group fuel ctx n)) ∧
    (∀ ctx m g, no_anchor_opt (render_cases fuel ctx m g)) ∧
    (∀ ctx id, no_anchor_opt (output_group fuel ctx id)) ∧
    (∀ ctx sl, no_anchor_opt (render_ship_cases fuel ctx sl)) ∧
    (∀ ctx id, no_anchor_opt (output_ship fuel ctx id)) := by
  intro fuel
  induction fuel with
  | zero =>
      refine ⟨?_, ?_, ?_, ?_, ?_, ?_, ?_, ?_⟩
      · intro ctx id l h; simp [output_event] at h
      · intro ctx cs l h; simp [render_choices] at h
      · intro ctx b l h; simp [goto_group_or_event] at h
      · intro ctx n l h; simp [goto_event_or_group] at h
      · intro ctx m g l h; simp [render_cases] at h
      · intro ctx id l h; simp [output_group] at h
      · intro ctx sl l h; simp [render_ship_cases] at h
      · intro ctx id l h; simp [output_ship] at h
  | succ fuel ih =>
      obtain ⟨ih1, ih2, ih3, ih4, ih5, ih6, ih7, ih8⟩ := ih
      have hEvent : ∀ ctx id, no_anchor_opt (output_event (fuel + 1) ctx id) := by
        intro ctx id l h
        simp only [output_event] at h
        split at h
        · cases h
        · split at h
          · simp only [Option.some.injEq] at h
            subst h
            exact no_anchor_cons_text _ _ _ (no_anchor_cons_raw _ no_anchor_nil)
          · split at h
            · simp only [Option.some.injEq] at h
              subst h
              exact no_anchor_cons_text _ _ _
                (no_anchor_cons_raw _ no_anchor_nil)
            · split at h
              · cases h
              · rename_i body heq
                simp only [Option.some.injEq] at h
                subst h
                simp only [List.cons_append, List.nil_append,
                  List.append_assoc]
                refine no_anchor_cons_text _ _ _ (no_anchor_cons_raw _
                  (no_anchor_cons_raw _ ?_))
                exact no_anchor_append (ih2 _ _ _ heq)
                  (no_anchor_cons_raw _ no_anchor_nil)
      have hChoices : ∀ ctx cs,
          no_anchor_opt (render_choices (fuel + 1) ctx cs) := by
        intro ctx cs l h
        cases cs with
        | nil =>
            simp only [render_choices, Option.some.injEq] at h
            subst h
            exact no_anchor_nil
        | cons hd rest =>
            obtain ⟨text, is_blue, nextID⟩ := hd
            simp only [render_choices] at h
            cases hinner : goto_group_or_event fuel ctx nextID with
            | none => rw [hinner] at h; cases h
            | some inner =>
                rw [hinner] at h
                cases htail : render_choices fuel ctx rest with
                | none => rw [htail] at h; cases h
                | some tail =>
                    rw [htail] at h
                    simp only [Option.some.injEq] at h
                    subst h
                    simp only [List.cons_append, List.nil_append,
                      List.append_assoc]
                    refine no_anchor_cons_raw _ (no_anchor_cons_raw _ ?_)
                    exact no_anchor_append (ih3 _ _ _ hinner)
                      (no_anchor_cons_raw _ (ih2 _ _ _ htail))
      have hGGE : ∀ ctx b,
          no_anchor_opt (goto_group_or_event (fuel + 1) ctx b) := by
        intro ctx b l h
        simp only [goto_group_or_event] at h
        split at h
        · cases h
        · split at h
          · split at h
            · exact ih6 _ _ _ h
            · simp only [Option.some.injEq] at h
              subst h
              exact no_anchor_goto _ _
          · split at h
            · split at h
              · exact ih1 _ _ _ h
              · simp only [Option.some.injEq] at h
                subst h
                exact no_anchor_goto _ _
            · cases h
      have hGEG : ∀ ctx n,
          no_anchor_opt (goto_event_or_group (fuel + 1) ctx n) := by
        intro ctx n l h
        simp only [goto_event_or_group] at h
        split at h
        · split at h
          · exact ih1 _ _ _ h
          · simp only [Option.some.injEq] at h
            subst h
            exact no_anchor_goto _ _
        · split at h
          · split at h
            · exact ih6 _ _ _ h
            · simp only [Option.some.injEq] at h
              subst h
              exact no_anchor_goto _ _
          · cases h
      have hCases : ∀ ctx m g,
          no_anchor_opt (render_cases (fuel + 1) ctx m g) := by
        intro ctx m g l h
        cases g with
        | nil =>
            simp only [render_cases, Option.some.injEq] at h
            subst h
            exact no_anchor_nil
        | cons hd rest =>
            obtain ⟨n, nextID⟩ := hd
            simp only [render_cases] at h
            cases hinner : goto_event_or_group fuel ctx nextID with
            | none => rw [hinner] at h; cases h
            | some inner =>
                rw [hinner] at h
                cases htail : render_cases fuel ctx m rest with
                | none => rw [htail] at h; cases h
                | some tail =>
                    rw [htail] at h
                    simp only [Option.some.injEq] at h
                    subst h
                    exact no_anchor_cons_raw _
                      (no_anchor_append (ih4 _ _ _ hinner)
                        (ih5 _ _ _ _ htail))
      have hGroup : ∀ ctx id,
          no_anchor_opt (output_group (fuel + 1) ctx id) := by
        intro ctx id l h
        simp only [output_group] at h
        split at h
        · cases h
        · split at h
          · cases h
          · rename_i body heq
            simp only [Option.some.injEq] at h
            subst h
            simp only [List.cons_append, List.nil_append, List.append_assoc]
            exact no_anchor_cons_raw _
              (no_anchor_append (ih5 _ _ _ _ heq)
                (no_anchor_cons_raw _ no_anchor_nil))
      have hShipCases : ∀ ctx sl,
          no_anchor_opt (render_ship_cases (fuel + 1) ctx sl) := by
        intro ctx sl l h
        cases sl with
        | nil =>
            simp only [render_ship_cases, Option.some.injEq] at h
            subst h
            exact no_anchor_nil
        | cons hd rest =>
            obtain ⟨slot, msg⟩ := hd
            simp only [render_ship_cases] at h
            cases slot with
            | none => exact ih7 _ _ _ h
            | some evtID =>
                simp only [] at h
                cases hinner : goto_group_or_event fuel ctx (some evtID) with
                | none => rw [hinner] at h; cases h
                | some inner =>
                    rw [hinner] at h
                    cases htail : render_ship_cases fuel ctx rest with
                    | none => rw [htail] at h; cases h
                    | some tail =>
                        rw [htail] at h
                        simp only [Option.some.injEq] at h
                        subst h
                        simp only [List.cons_append, List.nil_append,
                          List.append_assoc]
                        refine no_anchor_cons_raw _
                          (no_anchor_cons_raw _ ?_)
                        exact no_anchor_append (ih3 _ _ _ hinner)
                          (no_anchor_cons_raw _ (ih7 _ _ _ htail))
      have hShip : ∀ ctx id,
          no_anchor_opt (output_ship (fuel + 1) ctx id) := by
        intro ctx id l h
        simp only [output_ship] at h
        split at h
        · cases h
        · split at h
          · cases h
          · rename_i body heq
            simp only [Option.some.injEq] at h
            subst h
            simp only [List.cons_append, List.nil_append, List.append_assoc]
            exact no_anchor_cons_raw _
              (no_anchor_append (ih7 _ _ _ heq)
                (no_anchor_cons_raw _ no_anchor_nil))
      exact ⟨hEvent, hChoices, hGGE, hGEG, hCases, hGroup, hShipCases, hShip⟩

/-! ## Claim C3 -/

/-- C3 counterexample: the event `evtA` has in-degree 2 (and so, by the
claim, a link to its anchor should be emitted at a reference), yet
rendering a reference to it emits its inlined content and no link line at
all — `can_inline_event` short-circuits on the `evt` name prefix before
consulting the in-degree. -/
theorem c3_counterexample_evt_not_linked :
    dictHas ctxC3.event_dict ("evtA") = true ∧
    ctxC3.eventN ("evtA") = 2 ∧
    ("evtA") ∉ ctxC3.root_event_set ∧
    ("evtA") ∉ ctxC3.quest_events_set ∧
    goto_event_or_group 2 ctxC3 ("evtA") =
      some [Out.raw ("<div class=\"inner\">t</div>"),
            Out.raw ("<ul class=\"result\"><li>Nothing happens</ul>")] ∧
    has_goto
      [Out.raw ("<div class=\"inner\">t</div>"),
       Out.raw ("<ul class=\"result\"><li>Nothing happens</ul>")] = false := by
  refine ⟨by decide, by decide, by decide, by decide, by decide, by decide⟩

/-- C3 (amended): for every reference to a named Event `X` whose name does
*not* start with `evt`: if `X` is a root, or a quest target, or its
computed in-degree is not exactly 1, a link to `X`'s anchor is emitted;
otherwise `X`'s full content is inlined recursively at that point, with no
anchor. (Events named with the reserved `evt` prefix are always inlined —
claim C10.) -/
theorem c3_amended_link_vs_inline (fuel : Nat) (ctx : RenderCtx)
    (name : String) (hpre : str_starts_with name ("evt") = false) :
    (dictHas ctx.event_dict name = true →
      goto_event_or_group (fuel + 1) ctx name =
        if name ∈ ctx.root_event_set ∨ name ∈ ctx.quest_events_set ∨
            ctx.eventN name ≠ 1
        then some [Out.goto ("event") name]
        else output_event fuel ctx name) ∧
    (dictHas ctx.group_dict name = false →
      dictHas ctx.event_dict name = true →
      goto_group_or_event (fuel + 1) ctx (some name) =
        if name ∈ ctx.root_event_set ∨ name ∈ ctx.quest_events_set ∨
            ctx.eventN name ≠ 1
        then some [Out.goto ("event") name]
        else output_event fuel ctx name) ∧
    no_anchor_opt (output_event fuel ctx name) := by
  have hiff : can_inline_event ctx name = true ↔
      ¬(name ∈ ctx.root_event_set ∨ name ∈ ctx.quest_events_set ∨
        ctx.eventN name ≠ 1) := by
    simp only [can_inline_event, hpre, Bool.false_or, Bool.and_eq_true,
      beq_iff_eq, Bool.not_eq_true', not_or, not_not]
    constructor
    · intro h
      refine ⟨by simpa using h.1.2, by simpa using h.2, h.1.1⟩
    · intro h
      exact ⟨⟨h.2.2, by simpa using h.1⟩, by simpa using h.2.1⟩
  refine ⟨fun hEv => ?_, fun hG hEv => ?_,
    (render_no_anchor fuel).1 ctx name⟩
  · simp only [goto_event_or_group, hEv, if_true]
    by_cases hc : (name ∈ ctx.root_event_set ∨ name ∈ ctx.quest_events_set ∨
        ctx.eventN name ≠ 1)
    · rw [if_neg (fun h => (hiff.1 h) hc), if_pos hc]
    · rw [if_pos (hiff.2 hc), if_neg hc]
  · simp only [goto_group_or_event, hG, hEv, Bool.false_eq_true, if_false,
      if_true]
    by_cases hc : (name ∈ ctx.root_event_set ∨ name ∈ ctx.quest_events_set ∨
        ctx.eventN name ≠ 1)
    · rw [if_neg (fun h => (hiff.1 h) hc), if_pos hc]
    · rw [if_pos (hiff.2 hc), if_neg hc]

theorem c3_amended_link_vs_inline_witness :
    goto_event_or_group 2 ctxC3 ("FOO") = some [Out.goto ("event") ("FOO")] := by
  have h := (c3_amended_link_vs_inline 1 ctxC3 ("FOO") (by decide)).1
    (by decide)
  rw [h]
  rw [if_pos (by decide)]

/-! ## Claim C6 -/

/-- C6 counterexample: the single-case group `G = [(1, E)]` is rendered
with the `ul.random` list wrapper and the weight fraction `1/1` around the
case's content, not as the bare content the claim states. -/
theorem c6_counterexample_single_case_keeps_wrapper :
    dictGet ctxC6.group_dict ("G") = some [(1, ("E"))] ∧
    output_group 4 ctxC6 ("G") =
      some [Out.raw ("<ul class=\"random\">"), Out.raw ("<li> 1/1"),
            Out.raw ("<div class=\"inner\">t</div>"),
            Out.raw ("<ul class=\"result\"><li>Nothing happens</ul>"),
            Out.raw ("</ul>")] := by
  refine ⟨by decide, by decide⟩

theorem render_cases_single (fuel : Nat) (ctx : RenderCtx) (m w : Nat)
    (t : String) (body : List Out)
    (h : render_cases fuel ctx m [(w, t)] = some body) :
    ∃ inner, body = Out.raw (case_li w m) :: inner := by
  cases fuel with
  | zero => simp [render_cases] at h
  | succ fuel =>
      simp only [render_cases] at h
      cases hinner : goto_event_or_group fuel ctx t with
      | none => rw [hinner] at h; cases h
      | some inner =>
          rw [hinner] at h
          cases htail : render_cases fuel ctx m [] with
          | none => rw [htail] at h; cases h
          | some tail =>
              rw [htail] at h
              simp only [Option.some.injEq] at h
              subst h
              exact ⟨inner ++ tail, by simp⟩

/-- C6 (amended): a Group with exactly one case is rendered like any
other group — `output_group` emits the `ul.random` random-pool wrapper
and the weight fraction `w/w` before the case's content; there is no
single-case special case. -/
theorem c6_amended_single_case_group_keeps_wrapper (fuel : Nat)
    (ctx : RenderCtx) (id t : String) (w : Nat)
    (h : dictGet ctx.group_dict id = some [(w, t)]) :
    single_case_wrapped w (output_group fuel ctx id) := by
  intro out hout
  cases fuel with
  | zero => simp [output_group] at hout
  | succ fuel =>
      simp only [output_group, h] at hout
      have hws : weight_sum [(w, t)] = w := by simp [weight_sum]
      rw [hws] at hout
      cases hrc : render_cases fuel ctx w [(w, t)] with
      | none => rw [hrc] at hout; cases hout
      | some body =>
          rw [hrc] at hout
          simp only [Option.some.injEq] at hout
          subst hout
          obtain ⟨inner, hin⟩ := render_cases_single fuel ctx w w t body hrc
          subst hin
          exact ⟨inner, by simp⟩

theorem c6_amended_single_case_group_keeps_wrapper_witness :
    single_case_wrapped 1 (output_group 4 ctxC6 ("G")) :=
  c6_amended_single_case_group_keeps_wrapper 4 ctxC6 ("G") ("E") 1 (by decide)

/-! ## Top-level loop lemmas (for claim C10) -/

theorem can_inline_event_of_evt (ctx : RenderCtx) (name : String)
    (h : str_starts_with name ("evt") = true) :
    can_inline_event ctx name = true := by
  simp [can_inline_event, h]

theorem render_top_items_no_evt_event_anchor (fuel : Nat) (ctx : RenderCtx)
    (items : List (String × Bool)) (l : List Out)
    (h : render_top_items fuel ctx items = some l) (k : String)
    (hk : str_starts_with k ("evt") = true) :
    Out.anchorDecl ("event") k ∉ l := by
  induction items generalizing l with
  | nil =>
      simp only [render_top_items, Option.some.injEq] at h
      subst h
      simp
  | cons hd rest ih =>
      obtain ⟨key, isEvent⟩ := hd
      simp only [render_top_items] at h
      cases isEvent with
      | true =>
          simp only [if_true] at h
          by_cases hci : can_inline_event ctx key = true
          · rw [if_pos hci] at h
            exact ih l h
          · rw [if_neg hci] at h
            cases hbody : output_event fuel ctx key with
            | none => rw [hbody] at h; cases h
            | some body =>
                rw [hbody] at h
                cases htail : render_top_items fuel ctx rest with
                | none => rw [htail] at h; cases h
                | some tail =>
                    rw [htail] at h
                    simp only [Option.some.injEq] at h
                    subst h
                    intro hm
                    simp only [List.cons_append, List.nil_append,
                      List.append_assoc, List.mem_cons,
                      List.mem_append] at hm
                    rcases hm with hm | hm | hm
                    · have hkey : k = key := by
                        injection hm
                      subst hkey
                      exact hci (can_inline_event_of_evt ctx k hk)
                    · cases hm
                    · rcases hm with hm | hm
                      · exact (render_no_anchor fuel).1 ctx key body hbody
                          ("event") k hm
                      · rcases hm with hm | hm
                        · cases hm
                        · exact ih tail htail hm
      | false =>
          simp only [Bool.false_eq_true, if_false] at h
          by_cases hci : can_inline_group ctx key = true
          · rw [if_pos hci] at h
            exact ih l h
          · rw [if_neg hci] at h
            cases hbody : output_group fuel ctx key with
            | none => rw [hbody] at h; cases h
            | some body =>
                rw [hbody] at h
                cases htail : render_top_items fuel ctx rest with
                | none => rw [htail] at h; cases h
                | some tail =>
                    rw [htail] at h
                    simp only [Option.some.injEq] at h
                    subst h
                    intro hm
                    simp only [List.cons_append, List.nil_append,
                      List.append_assoc, List.mem_cons,
                      List.mem_append] at hm
                    rcases hm with hm | hm | hm
                    · injection hm with hm1 hm2
                      exact absurd hm1 (by decide)
                    · cases hm
                    · rcases hm with hm | hm
                      · exact (render_no_anchor fuel).2.2.2.2.2.1 ctx key
                          body hbody ("event") k hm
                      · rcases hm with hm | hm
                        · cases hm
                        · exact ih tail htail hm

theorem render_top_ships_no_event_anchor (fuel : Nat) (ctx : RenderCtx)
    (keys : List String) (l : List Out)
    (h : render_top_ships fuel ctx keys = some l) (k : String) :
    Out.anchorDecl ("event") k ∉ l := by
  induction keys generalizing l with
  | nil =>
      simp only [render_top_ships, Option.some.injEq] at h
      subst h
      simp
  | cons key rest ih =>
      simp only [render_top_ships] at h
      cases hbody : output_ship fuel ctx key with
      | none => rw [hbody] at h; cases h
      | some body =>
          rw [hbody] at h
          cases htail : render_top_ships fuel ctx rest with
          | none => rw [htail] at h; cases h
          | some tail =>
              rw [htail] at h
              simp only [Option.some.injEq] at h
              subst h
              intro hm
              simp only [List.cons_append, List.nil_append,
                List.append_assoc, List.mem_cons, List.mem_append] at hm
              rcases hm with hm | hm | hm
              · injection hm with hm1 hm2
                exact absurd hm1 (by decide)
              · cases hm
              · rcases hm with hm | hm
                · exact (render_no_anchor fuel).2.2.2.2.2.2.2 ctx key body
                    hbody ("event") k hm
                · rcases hm with hm | hm
                  · cases hm
                  · exact ih tail htail hm

/-! ## Claim C10 -/

/-- C10: an Event whose name starts with the synthetic prefix `evt` is
always inlinable — `can_inline_event` is true for it in every render
state, without consulting its in-degree or the root and quest-pinned
sets; a reference resolving to such an Event is rendered by inlining its
content (both dispatch orders); and the top-level `output_html` pass never
emits an `event` anchor for such a name. -/
theorem c10_evt_events_always_inlined (fuel : Nat) (ctx : RenderCtx)
    (name : String) (h : str_starts_with name ("evt") = true) :
    can_inline_event ctx name = true ∧
    (dictHas ctx.event_dict name = true →
      goto_event_or_group (fuel + 1) ctx name = output_event fuel ctx name) ∧
    (dictHas ctx.group_dict name = false →
      dictHas ctx.event_dict name = true →
      goto_group_or_event (fuel + 1) ctx (some name) =
        output_event fuel ctx name) ∧
    no_event_anchor_for name (output_html fuel ctx) := by
  have hci := can_inline_event_of_evt ctx name h
  refine ⟨hci, fun hEv => ?_, fun hG hEv => ?_, ?_⟩
  · simp [goto_event_or_group, hEv, hci]
  · simp [goto_group_or_event, hG, hEv, hci]
  · intro l hout
    unfold output_html at hout
    cases h1 : render_top_items fuel ctx (top_items ctx) with
    | none => rw [h1] at hout; cases hout
    | some evs =>
        rw [h1] at hout
        cases h2 : render_top_ships fuel ctx
            (sorted_keys (ctx.ship_dict.map Prod.fst)) with
        | none => rw [h2] at hout; cases hout
        | some shs =>
            rw [h2] at hout
            simp only [Option.some.injEq] at hout
            subst hout
            intro hm
            rcases List.mem_append.1 hm with hm | hm
            · exact render_top_items_no_evt_event_anchor fuel ctx _ _ h1
                name h hm
            · exact render_top_ships_no_event_anchor fuel ctx _ _ h2 name hm

theorem c10_evt_events_always_inlined_witness :
    can_inline_event ctxC10 ("evtA") = true ∧
    goto_event_or_group 3 ctxC10 ("evtA") = output_event 2 ctxC10 ("evtA") ∧
    no_event_anchor_for ("evtA") (output_html 5 ctxC10) :=
  ⟨(c10_evt_events_always_inlined 2 ctxC10 ("evtA") (by decide)).1,
   (c10_evt_events_always_inlined 2 ctxC10 ("evtA") (by decide)).2.1
     (by decide),
   (c10_evt_events_always_inlined 5 ctxC10 ("evtA") (by decide)).2.2.2⟩

/-! ## Build-phase lemmas (for claim C9) -/

theorem fold_groups_append (st : BuildState) (a b : List RawGroup) :
    fold_groups st (a ++ b) =
      match fold_groups st a with
      | none => none
      | some st2 => fold_groups st2 b := by
  induction a generalizing st with
  | nil => simp [fold_groups]
  | cons g rest ih =>
      simp only [List.cons_append, fold_groups]
      cases hg : graph_add_group st g with
      | none => rfl
      | some p => exact ih p.1

theorem add_doc_groups_spec (st : BuildState) (gs : List RawGroup) :
    add_doc_groups st gs =
      match fold_groups st
          (gs.filter fun g => !str_starts_with g.name ("OVERRIDE_")) with
      | none => none
      | some st2 =>
          some (st2, gs.filter fun g => str_starts_with g.name ("OVERRIDE_")) := by
  induction gs generalizing st with
  | nil => simp [add_doc_groups, fold_groups]
  | cons g rest ih =>
      by_cases hov : str_starts_with g.name ("OVERRIDE_") = true
      · simp only [add_doc_groups, hov, if_true, List.filter_cons,
          Bool.not_true, Bool.false_eq_true, if_false]
        rw [ih]
        cases fold_groups st
            (rest.filter fun g => !str_starts_with g.name ("OVERRIDE_")) with
        | none => rfl
        | some st2 => simp [hov]
      · simp only [Bool.not_eq_true] at hov
        simp only [add_doc_groups, hov, Bool.false_eq_true, if_false,
          List.filter_cons, Bool.not_false, if_true]
        cases hg : graph_add_group st g with
        | none => simp [fold_groups, hg]
        | some p =>
            simp only [fold_groups, hg]
            rw [ih p.1]
            cases fold_groups p.1
                (rest.filter fun g => !str_starts_with g.name ("OVERRIDE_")) with
            | none => rfl
            | some st2 => rfl

theorem build_files_spec (docs : List RawDoc) (ovs : List RawGroup)
    (st : BuildState) :
    build_files docs ovs st =
      match build_docs_nonoverride st docs with
      | none => none
      | some st2 => fold_groups st2 (ovs ++ override_groups docs) := by
  induction docs generalizing ovs st with
  | nil => simp [build_files, build_docs_nonoverride, override_groups]
  | cons doc rest ih =>
      simp only [build_files, build_docs_nonoverride, build_doc_nonoverride,
        add_doc_groups_spec]
      cases he : add_events_list st doc.events with
      | none => rfl
      | some st1 =>
          dsimp only
          cases hf : fold_groups st1
              (doc.groups.filter
                fun g => !str_starts_with g.name ("OVERRIDE_")) with
          | none => rfl
          | some st2 =>
              dsimp only
              cases hs : add_ships_list st2 doc.ships with
              | none => rfl
              | some st3 =>
                  dsimp only
                  rw [ih]
                  simp only [override_groups, List.flatMap_cons,
                    List.append_assoc]

/-! ## Claim C9 -/

/-- C9: a Group whose input name starts with `OVERRIDE_` is registered
under the name with that prefix removed, replacing any existing Group of
that (stripped) name without the duplicate-name assertion failing; and
`build_graph` equals the two-phase build that first processes every
non-override Event, Group and Ship of the whole input and only then every
`OVERRIDE_` group, in input order. -/
theorem c9_override_groups (st : BuildState) (g : RawGroup)
    (st2 : BuildState) (cs : List (Nat × String)) (docs : List RawDoc)
    (hc : add_group_cases st g.events = some (st2, cs))
    (hov : str_starts_with g.name ("OVERRIDE_") = true) :
    graph_add_group st g =
      some ({ st2 with
                group_dict := dictSet st2.group_dict (str_drop g.name 9) cs },
            str_drop g.name 9) ∧
    dictGet (dictSet st2.group_dict (str_drop g.name 9) cs)
      (str_drop g.name 9) = some cs ∧
    build_graph docs = build_graph_phased docs := by
  refine ⟨?_, dictGet_dictSet_self _ _ _, ?_⟩
  · simp [graph_add_group, hc, hov]
  · unfold build_graph build_graph_phased
    rw [build_files_spec]
    simp

theorem c9_override_groups_witness :
    graph_add_group stC9 gC9 =
      some ({ stC9 with
                group_dict := dictSet stC9.group_dict
                  (str_drop ("OVERRIDE_G") 9) [(1, ("E"))] },
            str_drop ("OVERRIDE_G") 9) ∧
    dictGet (dictSet stC9.group_dict (str_drop ("OVERRIDE_G") 9)
        [(1, ("E"))]) (str_drop ("OVERRIDE_G") 9) = some [(1, ("E"))] ∧
    build_graph docsC9 = build_graph_phased docsC9 :=
  c9_override_groups stC9 gC9 stC9 [(1, ("E"))] docsC9 (by rfl) (by decide)

end FTLGen
